import Mathlib

/-!
Verification model of the platform orchestration and fan-out layer of the
Streamin repository.

The definitions below are shallow embeddings of the JavaScript source:

* `Multistream` models `src/services/multistreamService.js`
  (stream sessions, relay processes, health check).
* `Base` models `src/services/socialMedia/basePlatform.js`
  (adapter state, outbound queue, reconnect backoff, message normalization,
  and a discrete-event semantics of the rate-limited queue).
* `Manager` models the `SocialMediaManager` (chat history ring buffer,
  chatbot response fan-out).
* `Rasa` models the `RasaChatbotService` response pipeline.

Machine-level effects (process kill signals, timer registration, promise
resolution) are recorded in explicit ghost fields so that theorems can speak
about them.  Times and durations are natural numbers of milliseconds, and
JavaScript `Map`s keyed by strings are association lists with `Map`-style
update semantics.
-/

namespace Assoc

/-- Association-list lookup, mirroring `Map.get`. -/
def lookup {α : Type} (k : String) : List (String × α) → Option α
  | [] => none
  | e :: es => if e.1 = k then some e.2 else lookup k es

/-- Association-list update, mirroring `Map.set`: replace in place, else append. -/
def setKey {α : Type} (k : String) (v : α) : List (String × α) → List (String × α)
  | [] => [(k, v)]
  | e :: es => if e.1 = k then (k, v) :: es else e :: setKey k v es

/-- Association-list removal, mirroring `Map.delete` (keys are unique in a `Map`). -/
def eraseKey {α : Type} (k : String) : List (String × α) → List (String × α)
  | [] => []
  | e :: es => if e.1 = k then eraseKey k es else e :: eraseKey k es

end Assoc

namespace Multistream

open Assoc

/-- One entry of `streamInfo.ffmpegProcesses`: a relay process handle.
The `status` field is the one written at creation time
(`{ process, platform: platform.name, status: 'running' }`). -/
structure RelayProc where
  platform : String
  status : String
deriving DecidableEq, Repr

/-- The per-stream record stored in `this.activeStreams`. -/
structure StreamInfo where
  ffmpegProcesses : List RelayProc
  status : String
  inputPath : String
  platforms : List String
deriving DecidableEq, Repr

/-- Per-platform statistics entry (`stats.platforms[platform]`). -/
structure PlatStat where
  status : Option String
deriving DecidableEq, Repr

/-- The per-stream record stored in `this.streamStats`. -/
structure StreamStats where
  platforms : List (String × PlatStat)
  errors : List String
deriving DecidableEq, Repr

/-- State of the `MultistreamService` singleton.  `killed` is a ghost log of
the `process.kill('SIGTERM')` calls issued, as `(streamId, platform)` pairs. -/
structure MSState where
  activeStreams : List (String × StreamInfo)
  streamStats : List (String × StreamStats)
  killed : List (String × String)
deriving DecidableEq, Repr

/-- The freshly constructed service: both maps empty. -/
def MSState.init : MSState := { activeStreams := [], streamStats := [], killed := [] }

/-- Source `updatePlatformStatus(streamId, platform, status)`. -/
def updatePlatformStatus (st : MSState) (streamId platform status : String) : MSState :=
  match lookup streamId st.streamStats with
  | none => st
  | some stats =>
      let entry : PlatStat := { status := some status }
      let stats' := { stats with platforms := setKey platform entry stats.platforms }
      { st with streamStats := setKey streamId stats' st.streamStats }

/-- Source `recordError(streamId, platform, error)`: push the error, keep the last 10. -/
def recordError (st : MSState) (streamId platform : String) : MSState :=
  match lookup streamId st.streamStats with
  | none => st
  | some stats =>
      let errs := stats.errors ++ [platform]
      let errs := if 10 < errs.length then errs.drop (errs.length - 10) else errs
      { st with streamStats := setKey streamId { stats with errors := errs } st.streamStats }

/-- Source `stopMultistream(streamId)`: unknown stream returns `false`; otherwise a
SIGTERM is sent to every relay process of the session and the session is
removed from the active map.  (The delayed `streamStats` deletion is not
modeled; it happens five minutes later.) -/
def stopMultistream (st : MSState) (streamId : String) : MSState × Bool :=
  match lookup streamId st.activeStreams with
  | none => (st, false)
  | some info =>
      ({ st with
          activeStreams := eraseKey streamId st.activeStreams,
          killed := st.killed ++ info.ffmpegProcesses.map (fun p => (streamId, p.platform)) },
        true)

/-- Errors thrown by `startMultistream`. -/
inductive StartErr where
  | duplicateSession
  | noTargets
  | allFailed
deriving DecidableEq, Repr

/-- Set the `status` field of an active session's `streamInfo`. -/
def setInfoStatus (st : MSState) (streamId status : String) : MSState :=
  match lookup streamId st.activeStreams with
  | none => st
  | some info =>
      { st with activeStreams := setKey streamId { info with status := status } st.activeStreams }

/-- The per-platform loop body of `startMultistream`: a successful
`createStreamProcess` fires the ffmpeg `start` event, which calls
`updatePlatformStatus(streamId, name, 'connected')`; a failed start is
recorded with `recordError`. -/
def startOne (streamId : String) (startOk : String → Bool) (st : MSState) (p : String) :
    MSState :=
  if startOk p then updatePlatformStatus st streamId p "connected"
  else recordError st streamId p

/-- Source `startMultistream(streamId, inputPath, options)`.

`platforms` is the list returned by `getEnabledPlatforms()` and `startOk`
says which relay processes spawn successfully.  The whole body runs inside
one `try`; every `throw` is routed through the `catch` block, which calls
`this.stopMultistream(streamId)` before rethrowing — including the
duplicate-session throw, in which case the stop tears down the already
active session. -/
def startMultistream (st : MSState) (streamId inputPath : String)
    (platforms : List String) (startOk : String → Bool) : MSState × Except StartErr Nat :=
  if (lookup streamId st.activeStreams).isSome then
    ((stopMultistream st streamId).1, .error .duplicateSession)
  else if platforms.isEmpty then
    ((stopMultistream st streamId).1, .error .noTargets)
  else
    let started := platforms.filter startOk
    let procs := started.map (fun p => ({ platform := p, status := "running" } : RelayProc))
    let info : StreamInfo :=
      { ffmpegProcesses := procs, status := "starting", inputPath := inputPath,
        platforms := platforms }
    let st1 : MSState :=
      { st with
          activeStreams := st.activeStreams ++ [(streamId, info)],
          streamStats := setKey streamId { platforms := [], errors := [] } st.streamStats }
    let st2 := platforms.foldl (startOne streamId startOk) st1
    if procs.isEmpty then
      ((stopMultistream st2 streamId).1, .error .allFailed)
    else
      (setInfoStatus st2 streamId "active", .ok procs.length)

/-- The ffmpeg `error` event handler wired in `createStreamProcess`:
`updatePlatformStatus(streamId, name, 'error')` then `recordError`. -/
def ffmpegError (st : MSState) (streamId platform : String) : MSState :=
  recordError (updatePlatformStatus st streamId platform "error") streamId platform

/-- One iteration of the `performHealthCheck` loop for a given stream id:
keep the session iff some `ffmpegProcesses` entry has `status === 'running'`. -/
def checkStream (st : MSState) (streamId : String) : MSState :=
  match lookup streamId st.activeStreams with
  | none => st
  | some info =>
      if (info.ffmpegProcesses.filter (fun p => p.status = "running")).isEmpty then
        (stopMultistream st streamId).1
      else st

/-- Source `performHealthCheck()`: iterate over the active stream ids. -/
def performHealthCheck (st : MSState) : MSState :=
  (st.activeStreams.map Prod.fst).foldl checkStream st

/-- Reachable example state: a session `s` started successfully on the single
enabled target `twitch`. -/
def msStarted : MSState :=
  (startMultistream MSState.init "s" "rtmp://in" ["twitch"] (fun _ => true)).1

/-- State `msStarted` after the ffmpeg `error` event for `twitch`: the relay's
tracked platform status is now `error`, i.e. not `connected`. -/
def msErrored : MSState := ffmpegError msStarted "s" "twitch"

/-- Result of calling `startMultistream` a second time for the already active
stream id `s`. -/
def msDupCall : MSState × Except StartErr Nat :=
  startMultistream msStarted "s" "rtmp://in" ["twitch"] (fun _ => true)

/-- A service state holding one session whose only relay entry does not carry
the process status `running`. -/
def deadSessionEx : MSState :=
  { activeStreams :=
      [("s", { ffmpegProcesses := [{ platform := "twitch", status := "dead" }],
               status := "active", inputPath := "rtmp://in", platforms := ["twitch"] })],
    streamStats := [], killed := [] }

end Multistream

namespace Base

/-- Raw per-platform chat event payload handed to
`BasePlatform.handleIncomingMessage`.  Optional fields model properties the
raw event may omit (JavaScript `undefined`). -/
structure RawMessage where
  userId : String
  username : String
  message : String
  timestamp : Option Nat
  messageId : Option String
  isSubscriber : Option Bool
  isModerator : Option Bool
  badges : Option (List String)
  emotes : Option (List String)
deriving DecidableEq, Repr

/-- The normalized `standardizedMessage` shape emitted as a `chatMessage`
event. -/
structure ChatMessage where
  platform : String
  userId : String
  username : String
  message : String
  timestamp : Nat
  messageId : Option String
  isSubscriber : Bool
  isModerator : Bool
  badges : List String
  emotes : List String
deriving DecidableEq, Repr

/-- Source `BasePlatform.handleIncomingMessage(messageData)`: builds the
standardized message.  Each `x || default` on an optional field becomes
`Option.getD` (`new Date()` is the current time `now`). -/
def handleIncomingMessage (name : String) (now : Nat) (m : RawMessage) : ChatMessage :=
  { platform := name
    userId := m.userId
    username := m.username
    message := m.message
    timestamp := m.timestamp.getD now
    messageId := m.messageId
    isSubscriber := m.isSubscriber.getD false
    isModerator := m.isModerator.getD false
    badges := m.badges.getD []
    emotes := m.emotes.getD [] }

/-- Mutable state of a `BasePlatform` instance.  `pendingTimers` is a ghost
log of reconnect timers scheduled by `setTimeout` and not yet fired or
cancelled (their delays in ms); `resolvedItems` is a ghost log of outbound
item promises that have been resolved, with the value passed to `resolve`. -/
structure AdapterState where
  isConnected : Bool := false
  isStreaming : Bool := false
  chatConnected : Bool := false
  reconnectAttempts : Nat := 0
  maxReconnectAttempts : Nat := 5
  reconnectDelay : Nat := 5000
  rateLimitQueue : List Nat := []
  lastMessageTime : Nat := 0
  messageRateLimit : Nat := 1000
  pendingTimers : List Nat := []
  resolvedItems : List (Nat × Bool) := []
deriving DecidableEq, Repr

/-- The state built by the `BasePlatform` constructor. -/
def AdapterState.init : AdapterState := {}

/-- Source `attemptReconnect()`: when the attempt counter has reached
`maxReconnectAttempts` nothing is scheduled; otherwise the counter is
incremented and a timer with delay `reconnectDelay * 2^(attempts - 1)` is
registered.  The second component reports the scheduled delay. -/
def attemptReconnect (st : AdapterState) : AdapterState × Option Nat :=
  if st.maxReconnectAttempts ≤ st.reconnectAttempts then
    (st, none)
  else
    let attempts := st.reconnectAttempts + 1
    let delay := st.reconnectDelay * 2 ^ (attempts - 1)
    ({ st with reconnectAttempts := attempts, pendingTimers := st.pendingTimers ++ [delay] },
      some delay)

/-- Source `handleConnection()`: mark connected and reset the attempt counter. -/
def handleConnection (st : AdapterState) : AdapterState :=
  { st with isConnected := true, reconnectAttempts := 0 }

/-- Source `handleDisconnection()`: drop both connection flags, then
`attemptReconnect()`. -/
def handleDisconnection (st : AdapterState) : AdapterState :=
  (attemptReconnect { st with isConnected := false, chatConnected := false }).1

/-- What `sendMessage` hands back to its caller. -/
inductive SendReturn where
  | immediateFalse
  | pendingFuture
deriving DecidableEq, Repr

/-- Source `sendMessage(message, options)`: when chat is not connected it returns
`false` at once, touching nothing; otherwise the item is pushed onto
`rateLimitQueue` and a promise is returned whose `resolve` is stored with the
item (resolved later by `processMessageQueue`). -/
def sendMessage (st : AdapterState) (item : Nat) : AdapterState × SendReturn :=
  if st.chatConnected = false then
    (st, .immediateFalse)
  else
    ({ st with rateLimitQueue := st.rateLimitQueue ++ [item] }, .pendingFuture)

/-- A generic concrete adapter's `stopStream`: clears the streaming flag
(the simple platform variants in `additionalPlatforms.js` do exactly this). -/
def stopStream (st : AdapterState) : AdapterState :=
  { st with isStreaming := false }

/-- A generic concrete adapter's `disconnectChat`: clears the chat flag. -/
def disconnectChat (st : AdapterState) : AdapterState :=
  { st with chatConnected := false }

/-- A generic concrete adapter's `connectChat`: sets the chat flag. -/
def connectChat (st : AdapterState) : AdapterState :=
  { st with chatConnected := true }

/-- Source `cleanup()`: stop streaming if streaming, disconnect chat if connected,
remove listeners.  No timer is cancelled (none is retained) and the outbound
queue is left untouched. -/
def cleanup (st : AdapterState) : AdapterState :=
  let st := if st.isStreaming then stopStream st else st
  let st := if st.chatConnected then disconnectChat st else st
  st

/-- Example adapter state: chat was connected, item 42 was enqueued, then a
disconnect scheduled a reconnect backoff timer. -/
def adapterEx : AdapterState :=
  handleDisconnection (sendMessage (connectChat AdapterState.init) 42).1

/-- A raw chat event carrying only the required fields. -/
def rawEx : RawMessage :=
  { userId := "u", username := "alice", message := "hi", timestamp := none,
    messageId := none, isSubscriber := none, isModerator := none, badges := none,
    emotes := none }

end Base

namespace Queue

/-- Discrete-event semantics of `sendMessage` / `processMessageQueue`.
Pending occurrences: an external `sendMessage` call enqueuing item `id`, a
throttle `setTimeout` firing `processMessageQueue`, and the completion of the
awaited `sendMessageImplementation(id)` (which runs the stored `resolve`). -/
inductive PEv where
  | enq (id : Nat)
  | timer
  | compl (id : Nat)
deriving DecidableEq, Repr

/-- Tie-break priority at equal times: promise completions resume before
timer callbacks, which run before new external calls. -/
def prio : PEv → Nat
  | .compl _ => 0
  | .timer => 1
  | .enq _ => 2

/-- A pending occurrence: (time in ms, occurrence). -/
abbrev TEv := Nat × PEv

/-- Total order key on pending occurrences: time first, then priority. -/
def key (e : TEv) : Nat := e.1 * 3 + prio e.2

/-- Insert into the time-ordered pending list, after existing entries with
the same key (registration order). -/
def insertEv (x : TEv) : List TEv → List TEv
  | [] => [x]
  | y :: ys => if key y ≤ key x then y :: insertEv x ys else x :: y :: ys

/-- State of one adapter's outbound queue machinery.

`log` records each transmission start as (start time, item id), in order;
`completed` records each item whose promise got resolved; `arrived` is a
ghost log of item ids in enqueue-call order. -/
structure QState where
  now : Nat
  lastMessageTime : Nat
  rateLimitQueue : List Nat
  pending : List TEv
  inflight : List Nat
  log : List (Nat × Nat)
  completed : List Nat
  arrived : List Nat
deriving DecidableEq, Repr

/-- Source `processMessageQueue()` at the current instant.  Empty queue: return.
Throttled (now - lastMessageTime < interval): schedule itself again after the
full interval.  Otherwise shift the head item, stamp `lastMessageTime`, and
start its transmission, which will complete after `d id` ms. -/
def processMessageQueue (interval : Nat) (d : Nat → Nat) (s : QState) : QState :=
  match s.rateLimitQueue with
  | [] => s
  | i :: rest =>
      if s.now - s.lastMessageTime < interval then
        { s with pending := insertEv (s.now + interval, .timer) s.pending }
      else
        { s with
            rateLimitQueue := rest
            lastMessageTime := s.now
            log := s.log ++ [(s.now, i)]
            inflight := s.inflight ++ [i]
            pending := insertEv (s.now + d i, .compl i) s.pending }

/-- Resumption after `await sendMessageImplementation` for item `i`: the
item's promise is resolved, and if the queue is non-empty another
`processMessageQueue` run is scheduled a full interval later. -/
def onComplete (interval : Nat) (i : Nat) (s : QState) : QState :=
  if s.rateLimitQueue.isEmpty then
    { s with inflight := s.inflight.erase i, completed := s.completed ++ [i] }
  else
    { s with inflight := s.inflight.erase i, completed := s.completed ++ [i],
             pending := insertEv (s.now + interval, .timer) s.pending }

/-- Process the earliest pending occurrence. -/
def step (interval : Nat) (d : Nat → Nat) (s : QState) : QState :=
  match s.pending with
  | [] => s
  | (t, .enq i) :: rest =>
      processMessageQueue interval d
        { s with now := t, pending := rest,
                 rateLimitQueue := s.rateLimitQueue ++ [i], arrived := s.arrived ++ [i] }
  | (t, .timer) :: rest =>
      processMessageQueue interval d { s with now := t, pending := rest }
  | (t, .compl i) :: rest =>
      onComplete interval i { s with now := t, pending := rest }

/-- Run `fuel` steps of the semantics. -/
def run (interval : Nat) (d : Nat → Nat) (s : QState) : Nat → QState
  | 0 => s
  | n + 1 => run interval d (step interval d s) n

/-- Initial queue state given the external `sendMessage` call times: clock and
`lastMessageTime` start at 0, everything else empty. -/
def initQ (evs : List (Nat × Nat)) : QState :=
  { now := 0
    lastMessageTime := 0
    rateLimitQueue := []
    pending := evs.foldl (fun acc e => insertEv (e.1, .enq e.2) acc) []
    inflight := []
    log := []
    completed := []
    arrived := [] }

/-- A transmission duration function: every send takes 2500 ms. -/
def slowSend : Nat → Nat := fun _ => 2500

/-- A transmission duration function: every send takes 500 ms. -/
def fastSend : Nat → Nat := fun _ => 500

/-- The pending list is ordered by the scheduling key. -/
def sortedPending (l : List TEv) : Prop :=
  List.Chain' (fun a b => key a ≤ key b) l

/-- Scheduler invariant, preserved by every step: the pending list is
ordered and lies in the future, the clock dominates the last send stamp,
send starts are spaced at least one interval apart, the send log followed by
the residual queue is exactly the arrival order, and completions only ever
concern items whose transmission has started. -/
structure QInv (interval : Nat) (d : Nat → Nat) (s : QState) : Prop where
  sorted : sortedPending s.pending
  future : ∀ e ∈ s.pending, s.now ≤ e.1
  lastle : s.lastMessageTime ≤ s.now
  gap : List.Chain' (fun a b => a.1 + interval ≤ b.1) s.log
  logle : ∀ e ∈ s.log, e.1 ≤ s.lastMessageTime
  fifo : s.log.map Prod.snd ++ s.rateLimitQueue = s.arrived
  compl_sent : ∀ t i, (t, PEv.compl i) ∈ s.pending → i ∈ s.log.map Prod.snd
  completed_sent : ∀ i ∈ s.completed, i ∈ s.log.map Prod.snd

/-- At most one transmission in flight: either none, or exactly the most
recently dequeued item, whose completion is still pending. -/
def Flight (d : Nat → Nat) (s : QState) : Prop :=
  s.inflight = [] ∨
    ∃ i, s.inflight = [i] ∧ (s.lastMessageTime + d i, PEv.compl i) ∈ s.pending

end Queue

namespace Manager

/-- The slice of a platform adapter the `SocialMediaManager` response fan-out
reads: its name, chat-connection flag, and the `chatbotEnabled` and
`allowSelfResponse` configuration flags. -/
structure Adapter where
  name : String
  chatConnected : Bool
  chatbotEnabled : Bool
  allowSelfResponse : Bool
deriving DecidableEq, Repr

/-- Outcome recorded for one adapter by `sendResponseToAllPlatforms`.
`attempted` says whether `platform.sendMessage(message)` was invoked. -/
structure SendResult where
  platform : String
  attempted : Bool
  success : Bool
deriving DecidableEq, Repr

/-- The per-adapter closure inside `sendResponseToAllPlatforms`: skip
adapters whose chat is not connected or whose chatbot is disabled; skip the
originating platform unless `allowSelfResponse`; otherwise send, catching a
failure locally.  `outcome p` says whether the send to platform `p`
succeeds. -/
def sendResponseToOne (origin : String) (outcome : String → Bool) (p : Adapter) : SendResult :=
  if p.chatConnected && p.chatbotEnabled then
    if p.name = origin && !p.allowSelfResponse then
      { platform := p.name, attempted := false, success := true }
    else if outcome p.name then
      { platform := p.name, attempted := true, success := true }
    else
      { platform := p.name, attempted := true, success := false }
  else
    { platform := p.name, attempted := false, success := false }

/-- Source `sendResponseToAllPlatforms(message, originalMessage)`: every adapter is
handled by its own settled promise; one adapter's failure cannot cancel the
others. -/
def sendResponseToAllPlatforms (platforms : List Adapter) (origin : String)
    (outcome : String → Bool) : List SendResult :=
  platforms.map (sendResponseToOne origin outcome)

/-- The platforms to which the response text was actually handed over. -/
def deliveredTo (platforms : List Adapter) (origin : String)
    (outcome : String → Bool) : List String :=
  ((sendResponseToAllPlatforms platforms origin outcome).filter
    (fun r => r.attempted)).map (fun r => r.platform)

/-- Capacity `this.maxMessageHistory` set in the `SocialMediaManager` constructor. -/
def maxMessageHistory : Nat := 1000

/-- The history update in `handleIncomingMessage`: push, then shift once if
the length exceeds the capacity. -/
def pushHistory (maxN : Nat) (hist : List Base.ChatMessage) (m : Base.ChatMessage) :
    List Base.ChatMessage :=
  let h := hist ++ [m]
  if maxN < h.length then h.tail else h

/-- A concrete normalized chat message, for evaluation. -/
def msgEx : Base.ChatMessage :=
  { platform := "twitch", userId := "u1", username := "alice", message := "hi"
    timestamp := 7, messageId := none, isSubscriber := false, isModerator := false
    badges := [], emotes := [] }

/-- A second concrete normalized chat message. -/
def msgEx2 : Base.ChatMessage :=
  { platform := "telegram", userId := "u2", username := "bob", message := "yo"
    timestamp := 9, messageId := some "m2", isSubscriber := true, isModerator := false
    badges := ["vip"], emotes := [] }

end Manager

namespace Rasa

/-- One element of the array the RASA webhook returns.  Confidence values
are floating point in the source; only order comparisons and defaulting ever
touch them, so they are represented exactly in thousandths (0.7 is 700). -/
structure RasaMsg where
  text : Option String
  confidence : Option Nat
  intent : Option String
deriving DecidableEq, Repr

/-- The response shape `processMessage` produces (ancillary fields `entities`,
`buttons`, `image`, `custom` are carried through unchanged and elided here). -/
structure BotResponse where
  text : String
  confidence : Nat
  intent : String
deriving DecidableEq, Repr

/-- The configuration slice `processMessage` reads, with the constructor
defaults (the contraction in the default fallback text is spelled out). -/
structure RasaConfig where
  confidenceThreshold : Nat := 700
  fallbackMessage : String := "Sorry, I did not understand that. Can you please rephrase?"
  maxResponseLength : Nat := 280
deriving DecidableEq, Repr

/-- The JavaScript `firstResponse.confidence || 0.8`: an absent or zero
confidence becomes 0.8 (800 in thousandths). -/
def defConf (o : Option Nat) : Nat :=
  match o with
  | none => 800
  | some c => if c = 0 then 800 else c

/-- The fallback response built inline in `processMessage`. -/
def fallback (cfg : RasaConfig) (intent : String) : BotResponse :=
  { text := cfg.fallbackMessage, confidence := 0, intent := intent }

/-- Source `processRasaResponse(rasaResponse, messageData)`: take the first element;
`null` when it is missing or has no text; otherwise truncate over-long text
(`formatResponseForPlatform` is the identity for every platform). -/
def processRasaResponse (cfg : RasaConfig) (rs : List RasaMsg) : Option BotResponse :=
  match rs with
  | [] => none
  | r :: _ =>
      match r.text with
      | none => none
      | some t =>
          let t :=
            if cfg.maxResponseLength < t.length then
              (t.take (cfg.maxResponseLength - 3)) ++ "..."
            else t
          some { text := t, confidence := defConf r.confidence, intent := r.intent.getD "unknown" }

/-- Source `processMessage(messageData)` with the cache lookup result and the RASA
call outcome as inputs.  `Except.error` is a transport failure or timeout of
`sendToRasa`; `messageLen` is the length of the trimmed message text, used by
`cacheResponse` (reading `response.confidence` on a `null` response throws,
which the outer catch converts into the error fallback). -/
def processMessage (cfg : RasaConfig) (isConnected : Bool) (cached : Option BotResponse)
    (engine : Except Unit (List RasaMsg)) (messageLen : Nat) : Option BotResponse :=
  if isConnected = false then none
  else
    match cached with
    | some c => some c
    | none =>
        match engine with
        | .error _ => some (fallback cfg "error")
        | .ok rs =>
            if 0 < rs.length then
              match processRasaResponse cfg rs with
              | some resp => some resp
              | none => if messageLen ≤ 20 then some (fallback cfg "error") else none
            else some (fallback cfg "fallback")

/-- A below-threshold engine reply: one message with confidence 0.1. -/
def lowConfReply : List RasaMsg :=
  [{ text := some "Our stream runs daily at noon UTC", confidence := some 100,
     intent := some "schedule" }]

end Rasa

/-! ## Helper lemmas -/

namespace Manager

theorem pushHistory_length_le (maxN : Nat) (hist : List Base.ChatMessage)
    (m : Base.ChatMessage) (h : hist.length ≤ maxN) :
    (pushHistory maxN hist m).length ≤ maxN := by
  unfold pushHistory
  by_cases hlt : maxN < (hist ++ [m]).length
  · simp only [hlt, if_true]
    have : (hist ++ [m]).length = hist.length + 1 := by simp
    rcases hist with _ | ⟨a, t⟩
    · simp
    · simpa using h
  · simp only [hlt, if_false]
    omega

theorem foldl_pushHistory_length_le (maxN : Nat) (msgs : List Base.ChatMessage)
    (hist : List Base.ChatMessage) (h : hist.length ≤ maxN) :
    (msgs.foldl (pushHistory maxN) hist).length ≤ maxN := by
  induction msgs generalizing hist with
  | nil => simpa using h
  | cons m rest ih => exact ih _ (pushHistory_length_le maxN hist m h)

end Manager

namespace Manager

theorem sendResponseToOne_platform (origin : String) (outcome : String → Bool) (p : Adapter) :
    (sendResponseToOne origin outcome p).platform = p.name := by
  unfold sendResponseToOne
  repeat' split
  all_goals rfl

theorem sendResponseToOne_attempted (origin : String) (outcome : String → Bool) (p : Adapter) :
    (sendResponseToOne origin outcome p).attempted =
      (p.chatConnected && p.chatbotEnabled && (!(p.name == origin) || p.allowSelfResponse)) := by
  unfold sendResponseToOne
  by_cases h3 : p.name = origin
  · by_cases h1 : p.chatConnected <;> by_cases h2 : p.chatbotEnabled <;>
      by_cases h4 : p.allowSelfResponse <;> simp [h1, h2, h3, h4] <;> (try split) <;> rfl
  · have hb : (p.name == origin) = false := by simp [h3]
    by_cases h1 : p.chatConnected <;> by_cases h2 : p.chatbotEnabled <;>
      by_cases h4 : p.allowSelfResponse <;> simp [h1, h2, h3, h4, hb] <;> (try split) <;> rfl

end Manager

/-! ## Claim theorems -/

/-- C2: the spec says a second `startSession` on an active streamId fails
with DuplicateSession and leaves the running session untouched.  The code
does throw, but the duplicate throw is routed through the catch block, which
calls `stopMultistream(streamId)` on the existing session: its relay gets a
SIGTERM and the session is removed from the active set.  Evaluated at the
failing input: service with active session `s` (one running relay on
`twitch`), second call for `s`. -/
theorem C2_duplicate_start_destroys_session :
    Multistream.msDupCall.2 = Except.error Multistream.StartErr.duplicateSession ∧
    Assoc.lookup "s" Multistream.msStarted.activeStreams ≠ none ∧
    Multistream.msStarted.killed = [] ∧
    Assoc.lookup "s" Multistream.msDupCall.1.activeStreams = none ∧
    ("s", "twitch") ∈ Multistream.msDupCall.1.killed := by
  refine ⟨rfl, ?_, rfl, rfl, ?_⟩ <;> decide

/-- C1 counterexample: a reachable state with one active session whose only
relay has tracked platform status `error` (so no relay is `connected`),
yet `performHealthCheck` neither removes the session nor signals any
process: the check reads the per-process `status` field, which is `running`
from creation and never updated. -/
theorem C1_health_check_counterexample :
    Assoc.lookup "s" Multistream.msErrored.streamStats =
      some { platforms := [("twitch", { status := some "error" })], errors := ["twitch"] } ∧
    (Assoc.lookup "s" Multistream.msErrored.activeStreams).map
      (fun i => i.ffmpegProcesses) =
      some [{ platform := "twitch", status := "running" }] ∧
    Assoc.lookup "s" (Multistream.performHealthCheck Multistream.msErrored).activeStreams ≠
      none ∧
    (Multistream.performHealthCheck Multistream.msErrored).killed = [] := by
  decide

/-- C5: when the attempt counter is below `maxReconnectAttempts`, the k-th
reconnection attempt is scheduled with delay reconnectDelay * 2^(k-1) and the
counter becomes k; once the counter has reached the maximum (5 by default)
nothing further is scheduled. -/
theorem C5_backoff (st : Base.AdapterState) (k : Nat) :
    (st.reconnectAttempts + 1 = k → st.reconnectAttempts < st.maxReconnectAttempts →
      (Base.attemptReconnect st).2 = some (st.reconnectDelay * 2 ^ (k - 1)) ∧
      (Base.attemptReconnect st).1.reconnectAttempts = k ∧
      (Base.attemptReconnect st).1.pendingTimers =
        st.pendingTimers ++ [st.reconnectDelay * 2 ^ (k - 1)]) ∧
    (st.maxReconnectAttempts ≤ st.reconnectAttempts →
      Base.attemptReconnect st = (st, none)) ∧
    Base.AdapterState.init.maxReconnectAttempts = 5 := by
  refine ⟨?_, ?_, rfl⟩
  · intro hk hlt
    subst hk
    unfold Base.attemptReconnect
    rw [if_neg (by omega)]
    simp
  · intro h
    unfold Base.attemptReconnect
    rw [if_pos h]

/-- C5 witness: with base delay 1000 and three attempts already made, the
4th attempt is scheduled 8000 ms out. -/
theorem C5_backoff_witness :
    (Base.attemptReconnect
      { Base.AdapterState.init with reconnectAttempts := 3, reconnectDelay := 1000 }).2 =
      some 8000 ∧
    (Base.attemptReconnect
      { Base.AdapterState.init with reconnectAttempts := 3, reconnectDelay := 1000 }).1.reconnectAttempts = 4 := by
  have h := (C5_backoff
    { Base.AdapterState.init with reconnectAttempts := 3, reconnectDelay := 1000 } 4).1
    rfl (by decide)
  exact ⟨by rw [h.1]; rfl, h.2.1⟩

/-- C9: appending any sequence of messages to the initially empty history
never grows it beyond the capacity 1000, and one append onto a full buffer
evicts exactly the oldest entry, preserving the order of the rest. -/
theorem C9_ring_buffer :
    (∀ msgs : List Base.ChatMessage,
      ((msgs.foldl (Manager.pushHistory Manager.maxMessageHistory) []).length ≤
        Manager.maxMessageHistory)) ∧
    (∀ (hist : List Base.ChatMessage) (m : Base.ChatMessage),
      hist.length = Manager.maxMessageHistory →
      Manager.pushHistory Manager.maxMessageHistory hist m = hist.tail ++ [m]) := by
  constructor
  · intro msgs
    exact Manager.foldl_pushHistory_length_le _ msgs [] (by simp)
  · intro hist m hlen
    rcases hist with _ | ⟨a, t⟩
    · simp [Manager.maxMessageHistory] at hlen
    · unfold Manager.pushHistory
      rw [if_pos (by simp [Manager.maxMessageHistory] at hlen ⊢; omega)]
      simp

/-- C9 witness: three appends stay within capacity, and an append onto a
full 1000-element buffer drops its head. -/
theorem C9_ring_buffer_witness :
    (([Manager.msgEx, Manager.msgEx2, Manager.msgEx].foldl
      (Manager.pushHistory Manager.maxMessageHistory) []).length ≤
        Manager.maxMessageHistory) ∧
    Manager.pushHistory Manager.maxMessageHistory
      (List.replicate 1000 Manager.msgEx) Manager.msgEx2 =
      (List.replicate 1000 Manager.msgEx).tail ++ [Manager.msgEx2] :=
  ⟨C9_ring_buffer.1 [Manager.msgEx, Manager.msgEx2, Manager.msgEx],
    C9_ring_buffer.2 (List.replicate 1000 Manager.msgEx) Manager.msgEx2
      (by rw [List.length_replicate]; rfl)⟩

/-- C10: every normalized message carries the adapter's own name as its
platform, a timestamp defaulting to the current time, boolean moderator and
subscriber flags defaulting to false, and badge and emote lists defaulting
to empty, whatever optional fields the raw event supplies. -/
theorem C10_normalized_message (name : String) (now : Nat) (m : Base.RawMessage) :
    (Base.handleIncomingMessage name now m).platform = name ∧
    (m.timestamp = none → (Base.handleIncomingMessage name now m).timestamp = now) ∧
    (∀ t, m.timestamp = some t → (Base.handleIncomingMessage name now m).timestamp = t) ∧
    (Base.handleIncomingMessage name now m).isModerator = m.isModerator.getD false ∧
    (Base.handleIncomingMessage name now m).isSubscriber = m.isSubscriber.getD false ∧
    (m.badges = none → (Base.handleIncomingMessage name now m).badges = []) ∧
    (m.emotes = none → (Base.handleIncomingMessage name now m).emotes = []) ∧
    (Base.handleIncomingMessage name now m).badges = m.badges.getD [] ∧
    (Base.handleIncomingMessage name now m).emotes = m.emotes.getD [] := by
  refine ⟨rfl, ?_, ?_, rfl, rfl, ?_, ?_, rfl, rfl⟩
  · intro h
    simp [Base.handleIncomingMessage, h]
  · intro t ht
    simp [Base.handleIncomingMessage, ht]
  · intro h
    simp [Base.handleIncomingMessage, h]
  · intro h
    simp [Base.handleIncomingMessage, h]

/-- C10 witness: a raw event with every optional field missing normalizes to
platform `twitch`, timestamp 5, non-moderator, non-subscriber, empty badge
and emote lists. -/
theorem C10_normalized_message_witness :
    (Base.handleIncomingMessage "twitch" 5 Base.rawEx).platform = "twitch" ∧
    (Base.handleIncomingMessage "twitch" 5 Base.rawEx).timestamp = 5 ∧
    (Base.handleIncomingMessage "twitch" 5 Base.rawEx).isModerator = false ∧
    (Base.handleIncomingMessage "twitch" 5 Base.rawEx).badges = [] := by
  have h := C10_normalized_message "twitch" 5 Base.rawEx
  exact ⟨h.1, h.2.1 rfl, by simpa using h.2.2.2.1, h.2.2.2.2.2.1 rfl⟩

/-- C7: the confidence threshold is configured (default 0.7) but never
consulted.  Evaluated at the failing input: connected client, uncached
message of length 30, engine replying with a single message of confidence
0.1 (below threshold).  The client returns the engine's text with
confidence 0.1 instead of the fallback with confidence 0. -/
theorem C7_threshold_never_applied :
    (100 : Nat) < ({} : Rasa.RasaConfig).confidenceThreshold ∧
    Rasa.processMessage {} true none (.ok Rasa.lowConfReply) 30 =
      some { text := "Our stream runs daily at noon UTC", confidence := 100,
             intent := "schedule" } ∧
    Rasa.processMessage {} true none (.ok Rasa.lowConfReply) 30 ≠
      some (Rasa.fallback {} "fallback") ∧
    (Rasa.processMessage {} true none (.ok Rasa.lowConfReply) 30).map
      Rasa.BotResponse.confidence ≠ some 0 := by
  decide

/-- C6 counterexample: with chat not connected, `sendMessage` resolves to
false immediately and nothing is appended to the queue, so a call can bypass
the queue. -/
theorem C6_send_message_counterexample :
    Base.AdapterState.init.chatConnected = false ∧
    (Base.sendMessage Base.AdapterState.init 7).1.rateLimitQueue = [] ∧
    (Base.sendMessage Base.AdapterState.init 7).2 = Base.SendReturn.immediateFalse := by
  decide

/-- C8 counterexample: an adapter with a pending backoff timer and one
queued undelivered item: `cleanup` cancels nothing and resolves nothing —
the timer stays registered and the item remains queued, its promise
unresolved. -/
theorem C8_cleanup_counterexample :
    Base.adapterEx.pendingTimers = [5000] ∧
    Base.adapterEx.rateLimitQueue = [42] ∧
    ¬ (Base.cleanup Base.adapterEx).pendingTimers = [] ∧
    (Base.cleanup Base.adapterEx).rateLimitQueue = [42] ∧
    (Base.cleanup Base.adapterEx).resolvedItems = [] := by
  decide

/-- C8 amended: `cleanup` stops streaming and disconnects chat, but leaves
every pending reconnect timer registered and every queued outbound item in
place with its promise unresolved (nothing is rejected). -/
theorem C8_cleanup_amended (st : Base.AdapterState) :
    (Base.cleanup st).pendingTimers = st.pendingTimers ∧
    (Base.cleanup st).rateLimitQueue = st.rateLimitQueue ∧
    (Base.cleanup st).resolvedItems = st.resolvedItems := by
  by_cases h1 : st.isStreaming <;> by_cases h2 : st.chatConnected <;>
    simp [Base.cleanup, Base.stopStream, Base.disconnectChat, h1, h2]

/-- C4 counterexample: with a 1000 ms rate limit and transmissions lasting
2500 ms, two items enqueued at the same instant are both in flight after
three scheduler steps — the second dequeue happens while the first send is
still pending, so sends are not one-at-a-time. -/
theorem C4_queue_counterexample :
    ¬ ((Queue.run 1000 Queue.slowSend (Queue.initQ [(10000, 0), (10000, 1)]) 3).inflight.length
      ≤ 1) := by
  decide

/-- C3: the response is handed to exactly the adapters that are
chat-connected and chatbot-enabled, excluding the originating platform
unless its allowSelfResponse flag is set; and the set of adapters the
response is handed to does not depend on per-adapter send outcomes, so one
adapter's failure cannot cancel the others. -/
theorem C3_fanout_exclusion (platforms : List Manager.Adapter) (origin : String)
    (outcome : String → Bool) :
    Manager.deliveredTo platforms origin outcome =
      (platforms.filter (fun p =>
        p.chatConnected && p.chatbotEnabled && (!(p.name == origin) || p.allowSelfResponse))).map
        (fun p => p.name) ∧
    Manager.deliveredTo platforms origin outcome =
      Manager.deliveredTo platforms origin (fun _ => false) := by
  have key : ∀ (oc : String → Bool),
      Manager.deliveredTo platforms origin oc =
        (platforms.filter (fun p =>
          p.chatConnected && p.chatbotEnabled &&
            (!(p.name == origin) || p.allowSelfResponse))).map (fun p => p.name) := by
    intro oc
    induction platforms with
    | nil => rfl
    | cons p rest ih =>
        simp only [Manager.deliveredTo, Manager.sendResponseToAllPlatforms, List.map_cons,
          List.filter_cons] at ih ⊢
        rw [Manager.sendResponseToOne_attempted]
        by_cases hb : (p.chatConnected && p.chatbotEnabled &&
            (!(p.name == origin) || p.allowSelfResponse)) = true
        · simp only [hb, if_true, List.map_cons, List.filter_cons]
          rw [Manager.sendResponseToOne_platform]
          exact congrArg _ ih
        · simp only [Bool.not_eq_true] at hb
          simp only [hb, Bool.false_eq_true, if_false]
          exact ih
  exact ⟨key outcome, (key outcome).trans (key (fun _ => false)).symm⟩

namespace Assoc

theorem lookup_eq_some_of_nodup {α : Type} {l : List (String × α)} {k : String} {v : α}
    (hnd : (l.map Prod.fst).Nodup) (hmem : (k, v) ∈ l) : lookup k l = some v := by
  induction l with
  | nil => cases hmem
  | cons e es ih =>
      simp only [List.map_cons, List.nodup_cons] at hnd
      rcases List.mem_cons.mp hmem with h | h
      · subst h
        simp [lookup]
      · have hk : e.1 ≠ k := by
          intro hek
          exact hnd.1 (hek ▸ (List.mem_map.mpr ⟨(k, v), h, rfl⟩))
        simp only [lookup, if_neg hk]
        exact ih hnd.2 h

theorem mem_of_mem_eraseKey {α : Type} {l : List (String × α)} {k : String} {x : String × α}
    (h : x ∈ eraseKey k l) : x ∈ l := by
  induction l with
  | nil => cases h
  | cons e es ih =>
      by_cases he : e.1 = k
      · simp only [eraseKey, if_pos he] at h
        exact List.mem_cons_of_mem _ (ih h)
      · simp only [eraseKey, if_neg he] at h
        rcases List.mem_cons.mp h with h | h
        · exact h ▸ List.mem_cons_self _ _
        · exact List.mem_cons_of_mem _ (ih h)

theorem mem_eraseKey_of_ne {α : Type} {l : List (String × α)} {k : String} {x : String × α}
    (hx : x ∈ l) (hne : x.1 ≠ k) : x ∈ eraseKey k l := by
  induction l with
  | nil => cases hx
  | cons e es ih =>
      rcases List.mem_cons.mp hx with h | h
      · subst h
        simp only [eraseKey, if_neg hne]
        exact List.mem_cons_self _ _
      · by_cases he : e.1 = k
        · simpa only [eraseKey, if_pos he] using ih h
        · simp only [eraseKey, if_neg he]
          exact List.mem_cons_of_mem _ (ih h)

theorem lookup_eraseKey_self {α : Type} (l : List (String × α)) (k : String) :
    lookup k (eraseKey k l) = none := by
  induction l with
  | nil => rfl
  | cons e es ih =>
      by_cases he : e.1 = k
      · simpa only [eraseKey, if_pos he] using ih
      · simp only [eraseKey, if_neg he, lookup, ih, if_neg he]

theorem lookup_eq_none_iff {α : Type} {l : List (String × α)} {k : String} :
    lookup k l = none ↔ ∀ x ∈ l, x.1 ≠ k := by
  induction l with
  | nil => simp [lookup]
  | cons e es ih =>
      by_cases he : e.1 = k
      · simp [lookup, if_pos he, he]
      · simp only [lookup, if_neg he, ih, List.mem_cons]
        constructor
        · intro h x hx
          rcases hx with hx | hx
          · exact hx ▸ he
          · exact h x hx
        · intro h x hx
          exact h x (Or.inr hx)

theorem eraseKey_sublist {α : Type} (k : String) (l : List (String × α)) :
    (eraseKey k l).Sublist l := by
  induction l with
  | nil => exact List.Sublist.refl _
  | cons e es ih =>
      by_cases he : e.1 = k
      · simpa only [eraseKey, if_pos he] using ih.cons e
      · simpa only [eraseKey, if_neg he] using ih.cons₂ e

theorem nodup_keys_eraseKey {α : Type} {l : List (String × α)} {k : String}
    (hnd : (l.map Prod.fst).Nodup) : ((eraseKey k l).map Prod.fst).Nodup :=
  hnd.sublist ((eraseKey_sublist k l).map Prod.fst)

end Assoc

namespace Multistream

open Assoc

theorem checkStream_mem_activeStreams {st : MSState} {streamId : String}
    {x : String × StreamInfo} (hx : x ∈ st.activeStreams) (hne : x.1 ≠ streamId) :
    x ∈ (checkStream st streamId).activeStreams := by
  unfold checkStream
  cases hl : lookup streamId st.activeStreams with
  | none => exact hx
  | some info =>
      simp only
      split
      · unfold stopMultistream
        rw [hl]
        exact mem_eraseKey_of_ne hx hne
      · exact hx

theorem checkStream_killed_mono {st : MSState} {streamId : String} {x : String × String}
    (hx : x ∈ st.killed) : x ∈ (checkStream st streamId).killed := by
  unfold checkStream
  cases hl : lookup streamId st.activeStreams with
  | none => exact hx
  | some info =>
      simp only
      split
      · unfold stopMultistream
        rw [hl]
        exact List.mem_append_left _ hx
      · exact hx

theorem checkStream_activeStreams_subset {st : MSState} {streamId : String}
    {x : String × StreamInfo} (hx : x ∈ (checkStream st streamId).activeStreams) :
    x ∈ st.activeStreams := by
  unfold checkStream at hx
  cases hl : lookup streamId st.activeStreams with
  | none => rwa [hl] at hx
  | some info =>
      rw [hl] at hx
      simp only at hx
      split at hx
      · unfold stopMultistream at hx
        rw [hl] at hx
        exact mem_of_mem_eraseKey hx
      · exact hx

theorem checkStream_nodup_keys {st : MSState} {streamId : String}
    (hnd : (st.activeStreams.map Prod.fst).Nodup) :
    (((checkStream st streamId).activeStreams).map Prod.fst).Nodup := by
  unfold checkStream
  cases hl : lookup streamId st.activeStreams with
  | none => exact hnd
  | some info =>
      simp only
      split
      · unfold stopMultistream
        rw [hl]
        exact nodup_keys_eraseKey hnd
      · exact hnd

theorem checkStream_lookup_none {st : MSState} {streamId sid : String}
    (h : lookup sid st.activeStreams = none) :
    lookup sid (checkStream st streamId).activeStreams = none := by
  rw [lookup_eq_none_iff] at h ⊢
  intro x hx
  exact h x (checkStream_activeStreams_subset hx)

theorem checkStream_stops {st : MSState} {sid : String} {info : StreamInfo}
    (hnd : (st.activeStreams.map Prod.fst).Nodup)
    (hmem : (sid, info) ∈ st.activeStreams)
    (hall : ∀ p ∈ info.ffmpegProcesses, p.status ≠ "running") :
    lookup sid (checkStream st sid).activeStreams = none ∧
    ∀ p ∈ info.ffmpegProcesses, (sid, p.platform) ∈ (checkStream st sid).killed := by
  have hl : lookup sid st.activeStreams = some info := lookup_eq_some_of_nodup hnd hmem
  have hempty : (info.ffmpegProcesses.filter (fun p => p.status = "running")).isEmpty = true := by
    rw [List.isEmpty_iff, List.filter_eq_nil_iff]
    intro p hp
    simpa using hall p hp
  unfold checkStream
  rw [hl]
  simp only [hempty, if_true]
  unfold stopMultistream
  rw [hl]
  constructor
  · exact lookup_eraseKey_self _ _
  · intro p hp
    exact List.mem_append_right _ (List.mem_map.mpr ⟨p, hp, rfl⟩)

theorem foldl_checkStream_stopped {sid : String} {info : StreamInfo} (ids : List String)
    (st : MSState)
    (h1 : lookup sid st.activeStreams = none)
    (h2 : ∀ p ∈ info.ffmpegProcesses, (sid, p.platform) ∈ st.killed) :
    lookup sid (ids.foldl checkStream st).activeStreams = none ∧
    ∀ p ∈ info.ffmpegProcesses, (sid, p.platform) ∈ (ids.foldl checkStream st).killed := by
  induction ids generalizing st with
  | nil => exact ⟨h1, h2⟩
  | cons i rest ih =>
      exact ih (checkStream st i) (checkStream_lookup_none h1)
        (fun p hp => checkStream_killed_mono (h2 p hp))

theorem foldl_checkStream_main {sid : String} {info : StreamInfo} (ids : List String)
    (st : MSState)
    (hnd : (st.activeStreams.map Prod.fst).Nodup)
    (hmem : (sid, info) ∈ st.activeStreams)
    (hin : sid ∈ ids)
    (hall : ∀ p ∈ info.ffmpegProcesses, p.status ≠ "running") :
    lookup sid (ids.foldl checkStream st).activeStreams = none ∧
    ∀ p ∈ info.ffmpegProcesses, (sid, p.platform) ∈ (ids.foldl checkStream st).killed := by
  induction ids generalizing st with
  | nil => cases hin
  | cons i rest ih =>
      by_cases hi : i = sid
      · subst hi
        have h := checkStream_stops hnd hmem hall
        simpa using foldl_checkStream_stopped rest (checkStream st i) h.1 h.2
      · rcases List.mem_cons.mp hin with h | h
        · exact absurd h.symm hi
        · exact ih (checkStream st i) (checkStream_nodup_keys hnd)
            (checkStream_mem_activeStreams hmem (fun hs => hi hs.symm)) h

end Multistream

/-- C1 amended: what the health check actually tests is the per-process
`status` field of the `ffmpegProcesses` entries (written as `running` at
creation and never updated), not the tracked relay platform status.  For
every active session in which no relay entry carries process status
`running`, a health-check run removes the session from the active set and
sends a termination signal to each of its relay processes. -/
theorem C1_health_check_amended (st : Multistream.MSState) (sid : String)
    (info : Multistream.StreamInfo)
    (hnd : (st.activeStreams.map Prod.fst).Nodup)
    (hmem : (sid, info) ∈ st.activeStreams)
    (hall : ∀ p ∈ info.ffmpegProcesses, p.status ≠ "running") :
    Assoc.lookup sid (Multistream.performHealthCheck st).activeStreams = none ∧
    ∀ p ∈ info.ffmpegProcesses,
      (sid, p.platform) ∈ (Multistream.performHealthCheck st).killed := by
  unfold Multistream.performHealthCheck
  exact Multistream.foldl_checkStream_main _ st hnd hmem
    (List.mem_map.mpr ⟨(sid, info), hmem, rfl⟩) hall

/-- C1 amended, witness: a state with one session whose only relay entry has
process status `dead` is removed by the health check and its relay is sent a
termination signal. -/
theorem C1_health_check_amended_witness :
    Assoc.lookup "s"
      (Multistream.performHealthCheck Multistream.deadSessionEx).activeStreams = none ∧
    ("s", "twitch") ∈ (Multistream.performHealthCheck Multistream.deadSessionEx).killed := by
  have h := C1_health_check_amended Multistream.deadSessionEx "s"
    { ffmpegProcesses := [{ platform := "twitch", status := "dead" }],
      status := "active", inputPath := "rtmp://in", platforms := ["twitch"] }
    (by decide) (by decide) (by decide)
  exact ⟨h.1, h.2 { platform := "twitch", status := "dead" } (by decide)⟩

namespace Queue

theorem prio_lt (e : PEv) : prio e < 3 := by
  cases e <;> simp [prio]

theorem time_le_of_key_le {a b : TEv} (h : key a ≤ key b) : a.1 ≤ b.1 := by
  have ha := prio_lt a.2
  have hb := prio_lt b.2
  unfold key at h
  omega

theorem mem_insertEv (x : TEv) {z : TEv} :
    ∀ (l : List TEv), z ∈ insertEv x l ↔ z = x ∨ z ∈ l
  | [] => by simp [insertEv]
  | y :: ys => by
      unfold insertEv
      by_cases hk : key y ≤ key x
      · rw [if_pos hk, List.mem_cons, mem_insertEv x ys, List.mem_cons]
        tauto
      · rw [if_neg hk, List.mem_cons]

theorem head_insertEv (x : TEv) (l : List TEv) {z : TEv}
    (h : (insertEv x l).head? = some z) : z = x ∨ l.head? = some z := by
  cases l with
  | nil =>
      simp only [insertEv, List.head?_cons, Option.some_inj] at h
      exact Or.inl h.symm
  | cons y ys =>
      unfold insertEv at h
      by_cases hk : key y ≤ key x
      · rw [if_pos hk] at h
        exact Or.inr (by simpa using h)
      · rw [if_neg hk] at h
        have hx : x = z := by simpa using h
        exact Or.inl hx.symm

theorem insertEv_sorted (x : TEv) :
    ∀ {l : List TEv}, sortedPending l → sortedPending (insertEv x l)
  | [], _ => List.chain'_singleton x
  | y :: ys, h => by
      have h' := (List.chain'_cons'.mp h)
      unfold insertEv
      by_cases hk : key y ≤ key x
      · rw [if_pos hk]
        refine List.chain'_cons'.mpr ⟨?_, insertEv_sorted x h'.2⟩
        intro z hz
        rcases head_insertEv x ys hz with rfl | hz'
        · exact hk
        · exact h'.1 z hz'
      · rw [if_neg hk]
        refine List.chain'_cons'.mpr ⟨?_, h⟩
        intro z hz
        simp only [List.head?_cons, Option.mem_def, Option.some_inj] at hz
        subst hz
        omega

theorem sorted_head_le {e : TEv} :
    ∀ {l : List TEv}, sortedPending (e :: l) → ∀ z ∈ l, key e ≤ key z := by
  intro l
  induction l generalizing e with
  | nil =>
      intro _ z hz
      cases hz
  | cons y ys ih =>
      intro h z hz
      have h1 := List.chain'_cons.mp h
      rcases List.mem_cons.mp hz with rfl | hz'
      · exact h1.1
      · exact le_trans h1.1 (ih h1.2 z hz')

theorem prepared_inv {interval : Nat} {d : Nat → Nat} {s : QState} {e : TEv}
    {rest : List TEv} (h : QInv interval d s) (hp : s.pending = e :: rest) :
    QInv interval d { s with now := e.1, pending := rest } := by
  have hs : sortedPending (e :: rest) := hp ▸ h.sorted
  refine ⟨(List.chain'_cons'.mp hs).2, ?_, ?_, h.gap, h.logle, h.fifo, ?_, h.completed_sent⟩
  · intro z hz
    exact time_le_of_key_le (sorted_head_le hs z hz)
  · exact le_trans h.lastle (h.future e (hp ▸ List.mem_cons_self e rest))
  · intro t i hm
    exact h.compl_sent t i (hp ▸ List.mem_cons_of_mem e hm)

theorem enq_inv {interval : Nat} {d : Nat → Nat} {s : QState} (i : Nat)
    (h : QInv interval d s) :
    QInv interval d
      { s with rateLimitQueue := s.rateLimitQueue ++ [i], arrived := s.arrived ++ [i] } := by
  refine ⟨h.sorted, h.future, h.lastle, h.gap, h.logle, ?_, h.compl_sent, h.completed_sent⟩
  rw [← List.append_assoc, h.fifo]

theorem processMessageQueue_inv {interval : Nat} {d : Nat → Nat} {s : QState}
    (h : QInv interval d s) : QInv interval d (processMessageQueue interval d s) := by
  unfold processMessageQueue
  split
  next => exact h
  next i rest hq =>
    split
    next ht =>
      refine ⟨insertEv_sorted _ h.sorted, ?_, h.lastle, h.gap, h.logle, h.fifo, ?_,
        h.completed_sent⟩
      · intro z hz
        rcases (mem_insertEv _ _).mp hz with rfl | hz'
        · exact Nat.le_add_right _ _
        · exact h.future z hz'
      · intro t j hm
        rcases (mem_insertEv _ _).mp hm with heq | hm'
        · simp at heq
        · exact h.compl_sent t j hm'
    next ht =>
      have hlast : s.lastMessageTime + interval ≤ s.now := by
        have := h.lastle
        omega
      have hf := h.fifo
      rw [hq] at hf
      refine ⟨insertEv_sorted _ h.sorted, ?_, le_refl _, ?_, ?_, ?_, ?_, ?_⟩
      · intro z hz
        rcases (mem_insertEv _ _).mp hz with rfl | hz'
        · exact Nat.le_add_right _ _
        · exact h.future z hz'
      · refine List.Chain'.append h.gap (List.chain'_singleton _) ?_
        intro x hx y hy
        rcases List.mem_getLast?_eq_getLast hx with ⟨hne, rfl⟩
        have hx1 := h.logle _ (List.getLast_mem hne)
        have hy1 : (s.now, i) = y := by simpa using hy
        rw [← hy1]
        simp only
        omega
      · intro z hz
        rcases List.mem_append.mp hz with hz' | hz'
        · exact le_trans (h.logle z hz') h.lastle
        · have : z = (s.now, i) := by simpa using hz'
          rw [this]
      · rw [List.map_append, List.append_assoc]
        simpa using hf
      · intro t j hm
        rw [List.map_append]
        rcases (mem_insertEv _ _).mp hm with heq | hm'
        · rw [Prod.mk.injEq] at heq
          have hji : j = i := by simpa using heq.2
          subst hji
          exact List.mem_append_right _ (by simp)
        · exact List.mem_append_left _ (h.compl_sent t j hm')
      · intro j hj
        rw [List.map_append]
        exact List.mem_append_left _ (h.completed_sent j hj)

theorem onComplete_inv {interval : Nat} {d : Nat → Nat} {s : QState} {i : Nat}
    (h : QInv interval d s) (hi : i ∈ s.log.map Prod.snd) :
    QInv interval d (onComplete interval i s) := by
  unfold onComplete
  have hcompleted : ∀ j ∈ s.completed ++ [i], j ∈ s.log.map Prod.snd := by
    intro j hj
    rcases List.mem_append.mp hj with hj' | hj'
    · exact h.completed_sent j hj'
    · have : j = i := by simpa using hj'
      exact this ▸ hi
  split
  · exact ⟨h.sorted, h.future, h.lastle, h.gap, h.logle, h.fifo, h.compl_sent, hcompleted⟩
  · refine ⟨insertEv_sorted _ h.sorted, ?_, h.lastle, h.gap, h.logle, h.fifo, ?_, hcompleted⟩
    · intro z hz
      rcases (mem_insertEv _ _).mp hz with rfl | hz'
      · exact Nat.le_add_right _ _
      · exact h.future z hz'
    · intro t j hm
      rcases (mem_insertEv _ _).mp hm with heq | hm'
      · simp at heq
      · exact h.compl_sent t j hm'

theorem step_inv {interval : Nat} {d : Nat → Nat} {s : QState}
    (h : QInv interval d s) : QInv interval d (step interval d s) := by
  rcases hp : s.pending with _ | ⟨⟨t, ev⟩, rest⟩
  · unfold step
    rw [hp]
    exact h
  · have hprep := prepared_inv h hp
    unfold step
    rw [hp]
    cases ev with
    | enq i => exact processMessageQueue_inv (enq_inv i hprep)
    | timer => exact processMessageQueue_inv hprep
    | compl i =>
        exact onComplete_inv hprep (h.compl_sent t i (hp ▸ List.mem_cons_self _ _))

theorem processMessageQueue_flight {interval : Nat} {d : Nat → Nat} {s : QState}
    (hd : ∀ j, d j < interval)
    (hfut : ∀ e ∈ s.pending, s.now ≤ e.1) (hl : s.lastMessageTime ≤ s.now)
    (hf : Flight d s) : Flight d (processMessageQueue interval d s) := by
  unfold processMessageQueue
  split
  next => exact hf
  next i rest hq =>
    split
    next ht =>
      rcases hf with hfl | ⟨j, hj, hm⟩
      · exact Or.inl hfl
      · exact Or.inr ⟨j, hj, (mem_insertEv _ _).mpr (Or.inr hm)⟩
    next ht =>
      have hinfl : s.inflight = [] := by
        rcases hf with hfl | ⟨j, hj, hm⟩
        · exact hfl
        · exfalso
          have h1 := hfut _ hm
          have h2 := hd j
          simp only at h1
          omega
      right
      refine ⟨i, ?_, (mem_insertEv _ _).mpr (Or.inl rfl)⟩
      rw [hinfl]
      rfl

theorem erase_singleton_ne {j i : Nat} (h : j ≠ i) : [j].erase i = [j] := by
  simp [List.erase_cons, h]

theorem onComplete_flight {interval : Nat} {d : Nat → Nat} {s : QState} {i : Nat}
    (hf : s.inflight = [] ∨
      ∃ j, s.inflight = [j] ∧
        (j ≠ i → (s.lastMessageTime + d j, PEv.compl j) ∈ s.pending)) :
    Flight d (onComplete interval i s) := by
  have herase : ∀ j : Nat, s.inflight = [j] → j ≠ i → s.inflight.erase i = [j] := by
    intro j hj hij
    rw [hj]
    exact erase_singleton_ne hij
  unfold onComplete
  rcases hf with hfl | ⟨j, hj, hcond⟩
  · have h0 : s.inflight.erase i = [] := by rw [hfl]; rfl
    split
    · exact Or.inl h0
    · exact Or.inl h0
  · by_cases hij : j = i
    · subst hij
      have h0 : s.inflight.erase j = [] := by rw [hj]; exact List.erase_cons_head j []
      split
      · exact Or.inl h0
      · exact Or.inl h0
    · have h1 := herase j hj hij
      have hmem := hcond hij
      split
      · exact Or.inr ⟨j, h1, hmem⟩
      · exact Or.inr ⟨j, h1, (mem_insertEv _ _).mpr (Or.inr hmem)⟩

theorem step_flight {interval : Nat} {d : Nat → Nat} {s : QState}
    (hd : ∀ j, d j < interval) (h : QInv interval d s) (hf : Flight d s) :
    Flight d (step interval d s) := by
  rcases hp : s.pending with _ | ⟨⟨t, ev⟩, rest⟩
  · unfold step
    rw [hp]
    exact hf
  · have hprep := prepared_inv h hp
    have hrest : ∀ {j : Nat}, (s.lastMessageTime + d j, PEv.compl j) ∈ s.pending →
        (t, ev) ≠ (s.lastMessageTime + d j, PEv.compl j) →
        (s.lastMessageTime + d j, PEv.compl j) ∈ rest := by
      intro j hm hne
      rcases List.mem_cons.mp (hp ▸ hm) with heq | hm'
      · exact absurd heq.symm hne
      · exact hm'
    unfold step
    rw [hp]
    cases ev with
    | enq i =>
        refine processMessageQueue_flight hd hprep.future hprep.lastle ?_
        rcases hf with hfl | ⟨j, hj, hm⟩
        · exact Or.inl hfl
        · exact Or.inr ⟨j, hj, hrest hm (by simp)⟩
    | timer =>
        refine processMessageQueue_flight hd hprep.future hprep.lastle ?_
        rcases hf with hfl | ⟨j, hj, hm⟩
        · exact Or.inl hfl
        · exact Or.inr ⟨j, hj, hrest hm (by simp)⟩
    | compl i =>
        refine onComplete_flight ?_
        rcases hf with hfl | ⟨j, hj, hm⟩
        · exact Or.inl hfl
        · refine Or.inr ⟨j, hj, fun hji => hrest hm ?_⟩
          simp only [ne_eq, Prod.mk.injEq, not_and]
          intro _ hc
          have hij2 : i = j := by simpa using hc
          exact hji hij2.symm

theorem run_inv (interval : Nat) (d : Nat → Nat) (fuel : Nat) :
    ∀ s : QState, QInv interval d s → QInv interval d (run interval d s fuel) := by
  induction fuel with
  | zero => intro s h; exact h
  | succ n ih => intro s h; exact ih _ (step_inv h)

theorem run_flight (interval : Nat) (d : Nat → Nat) (fuel : Nat)
    (hd : ∀ j, d j < interval) :
    ∀ s : QState, QInv interval d s → Flight d s → Flight d (run interval d s fuel) := by
  induction fuel with
  | zero => intro s _ hf; exact hf
  | succ n ih => intro s h hf; exact ih _ (step_inv h) (step_flight hd h hf)

theorem foldl_insertEv_sorted (evs : List (Nat × Nat)) :
    ∀ acc, sortedPending acc →
      sortedPending (evs.foldl (fun a e => insertEv (e.1, PEv.enq e.2) a) acc) := by
  induction evs with
  | nil => intro acc h; exact h
  | cons e rest ih => intro acc h; exact ih _ (insertEv_sorted _ h)

theorem mem_foldl_insertEv {z : TEv} (evs : List (Nat × Nat)) :
    ∀ {acc : List TEv}, z ∈ evs.foldl (fun a e => insertEv (e.1, PEv.enq e.2) a) acc →
      z ∈ acc ∨ ∃ e ∈ evs, z = (e.1, PEv.enq e.2) := by
  induction evs with
  | nil => intro acc h; exact Or.inl h
  | cons e rest ih =>
      intro acc h
      rcases ih h with h' | ⟨e', he', rfl⟩
      · rcases (mem_insertEv _ _).mp h' with rfl | h''
        · exact Or.inr ⟨e, List.mem_cons_self _ _, rfl⟩
        · exact Or.inl h''
      · exact Or.inr ⟨e', List.mem_cons_of_mem _ he', rfl⟩

theorem initQ_inv (interval : Nat) (d : Nat → Nat) (evs : List (Nat × Nat)) :
    QInv interval d (initQ evs) := by
  refine ⟨foldl_insertEv_sorted evs [] List.chain'_nil, ?_, le_refl _, List.chain'_nil,
    ?_, rfl, ?_, ?_⟩
  · intro e _
    exact Nat.zero_le _
  · intro e he
    cases he
  · intro t i hm
    rcases mem_foldl_insertEv evs hm with h | ⟨e, _, heq⟩
    · cases h
    · simp at heq
  · intro i hi
    cases hi

theorem initQ_flight (d : Nat → Nat) (evs : List (Nat × Nat)) : Flight d (initQ evs) :=
  Or.inl rfl

end Queue

/-- C4 amended: for every adapter queue run, items start transmission in
exact enqueue order (the send log followed by the residual queue is the
arrival order), the start times of consecutive sends are never closer than
the rate-limit interval, and — provided every transmission completes in less
than the rate-limit interval — at most one send is in flight at any time.
Without that proviso a throttle timer can dequeue the next item while the
previous transmission is still awaited, as the counterexample shows. -/
theorem C4_queue_amended (interval : Nat) (d : Nat → Nat) (evs : List (Nat × Nat))
    (fuel : Nat) :
    (Queue.run interval d (Queue.initQ evs) fuel).log.map Prod.snd ++
        (Queue.run interval d (Queue.initQ evs) fuel).rateLimitQueue =
      (Queue.run interval d (Queue.initQ evs) fuel).arrived ∧
    List.Chain' (fun a b => a.1 + interval ≤ b.1)
      (Queue.run interval d (Queue.initQ evs) fuel).log ∧
    ((∀ j, d j < interval) →
      (Queue.run interval d (Queue.initQ evs) fuel).inflight.length ≤ 1) := by
  have h := Queue.run_inv interval d fuel _ (Queue.initQ_inv interval d evs)
  refine ⟨h.fifo, h.gap, ?_⟩
  intro hd
  have hf := Queue.run_flight interval d fuel hd _ (Queue.initQ_inv interval d evs)
    (Queue.initQ_flight d evs)
  rcases hf with hf | ⟨j, hj, _⟩
  · rw [hf]
    exact Nat.zero_le _
  · rw [hj]
    simp

/-- C4 amended, witness: rate limit 1000 ms, transmissions of 500 ms, two
items enqueued at the same instant, four steps: FIFO order, spacing, and the
one-in-flight bound all hold. -/
theorem C4_queue_amended_witness :
    (Queue.run 1000 Queue.fastSend (Queue.initQ [(10000, 0), (10000, 1)]) 4).log.map
        Prod.snd ++
        (Queue.run 1000 Queue.fastSend (Queue.initQ [(10000, 0), (10000, 1)]) 4).rateLimitQueue =
      (Queue.run 1000 Queue.fastSend (Queue.initQ [(10000, 0), (10000, 1)]) 4).arrived ∧
    List.Chain' (fun a b => a.1 + 1000 ≤ b.1)
      (Queue.run 1000 Queue.fastSend (Queue.initQ [(10000, 0), (10000, 1)]) 4).log ∧
    (Queue.run 1000 Queue.fastSend (Queue.initQ [(10000, 0), (10000, 1)]) 4).inflight.length
      ≤ 1 := by
  have h := C4_queue_amended 1000 Queue.fastSend [(10000, 0), (10000, 1)] 4
  refine ⟨h.1, h.2.1, h.2.2 ?_⟩
  intro j
  show (500 : Nat) < 1000
  decide

/-- C6 amended: while chat is connected, every `sendMessage` call appends
the item to the adapter's own outbound queue and returns a pending future,
and a queued item's future is resolved only at the completion of its
transmission (every completed item appears in the send log); but when chat
is not connected `sendMessage` returns false at once without enqueuing. -/
theorem C6_send_message_amended :
    (∀ (st : Base.AdapterState) (item : Nat), st.chatConnected = true →
      (Base.sendMessage st item).1.rateLimitQueue = st.rateLimitQueue ++ [item] ∧
      (Base.sendMessage st item).2 = Base.SendReturn.pendingFuture) ∧
    (∀ (interval : Nat) (d : Nat → Nat) (evs : List (Nat × Nat)) (fuel i : Nat),
      i ∈ (Queue.run interval d (Queue.initQ evs) fuel).completed →
      i ∈ (Queue.run interval d (Queue.initQ evs) fuel).log.map Prod.snd) := by
  constructor
  · intro st item h
    constructor
    · simp [Base.sendMessage, h]
    · simp [Base.sendMessage, h]
  · intro interval d evs fuel i hi
    exact (Queue.run_inv interval d fuel _ (Queue.initQ_inv interval d evs)).completed_sent
      i hi

/-- C6 amended, witness: with chat connected, item 42 lands at the end of
the queue; in a concrete run, item 0 is completed only after appearing in
the send log. -/
theorem C6_send_message_amended_witness :
    (Base.sendMessage (Base.connectChat Base.AdapterState.init) 42).1.rateLimitQueue =
      (Base.connectChat Base.AdapterState.init).rateLimitQueue ++ [42] ∧
    0 ∈ (Queue.run 1000 Queue.fastSend (Queue.initQ [(10000, 0)]) 2).completed ∧
    0 ∈ (Queue.run 1000 Queue.fastSend (Queue.initQ [(10000, 0)]) 2).log.map Prod.snd := by
  refine ⟨(C6_send_message_amended.1 _ 42 rfl).1, by decide, ?_⟩
  exact C6_send_message_amended.2 1000 Queue.fastSend [(10000, 0)] 2 0 (by decide)
